import Mathlib

/-!
Verification of the mson annotation-driven decoding pipeline.

Strings are modelled as lists of characters (`GoStr`); the source scans
bytes, and all delimiters and markers involved are ASCII, so the
character-level model is exact on the inputs of interest.
-/

/-- Go strings modelled as lists of characters. -/
abbrev GoStr := List Char

/-- Coercion from Lean string literals to the `GoStr` model. -/
def gs (s : String) : GoStr := s.data

/-- The whitespace predicate of `strings.TrimSpace`, restricted to the ASCII
whitespace characters (the only ones arising in annotation strings). -/
def isGoSpace (c : Char) : Bool :=
  c = ' ' || c = '\t' || c = '\n' || c = '\r' || c = '\x0b' || c = '\x0c'

/-- Model of `strings.TrimSpace`: drop whitespace from both ends. -/
def goTrim (l : GoStr) : GoStr :=
  ((l.dropWhile isGoSpace).reverse.dropWhile isGoSpace).reverse

/-- Model of the Go slice expression s[a:b]. -/
def goSlice (s : GoStr) (a b : Nat) : GoStr := (s.take b).drop a

/-- The loop of `splitIgnoreQuoted` (util.go): index `i` scans the input,
`start` marks the beginning of the current token, `inQuotes` is the quote
flag, `parts` accumulates finished tokens.  The `fuel` argument bounds the
number of remaining iterations and is initialised to the string length, so
the loop always runs to completion exactly as in the source. -/
def sIQAux (s : GoStr) (sep : Char) :
    Nat → Nat → Nat → Bool → List GoStr → List GoStr
  | 0, i, start, _, parts => parts ++ [goTrim (goSlice s start i)]
  | fuel + 1, i, start, inQuotes, parts =>
    if h : i < s.length then
      if s.get ⟨i, h⟩ = '"' then
        sIQAux s sep fuel (i + 1) start (!inQuotes) parts
      else if s.get ⟨i, h⟩ = sep ∧ inQuotes = false then
        sIQAux s sep fuel (i + 1) (i + 1) inQuotes
          (parts ++ [goTrim (goSlice s start i)])
      else
        sIQAux s sep fuel (i + 1) start inQuotes parts
    else parts ++ [goTrim (goSlice s start i)]

/-- Model of `splitIgnoreQuoted` from util.go: split `s` at `sep`, treating quoted
spans as opaque and trimming each produced token. -/
def splitIgnoreQuoted (s : GoStr) (sep : Char) : List GoStr :=
  sIQAux s sep s.length 0 0 false []

/-- Specification-level scanner, written from the spec's words: scan left to
right, a quote toggles the flag and stays in the token, the delimiter splits
only outside quotes, `acc` is the token being built. -/
def rawScan (sep : Char) : GoStr → Bool → GoStr → List GoStr
  | [], _, acc => [acc]
  | c :: rest, inQuotes, acc =>
    if c = '"' then rawScan sep rest (!inQuotes) (acc ++ [c])
    else if c = sep ∧ inQuotes = false then acc :: rawScan sep rest inQuotes []
    else rawScan sep rest inQuotes (acc ++ [c])

/-- Specification-level split: scan, then trim every token. -/
def splitSpec (s : GoStr) (sep : Char) : List GoStr :=
  (rawScan sep s false []).map goTrim

theorem dropWhile_dropWhile_self (p : Char → Bool) (l : GoStr) :
    (l.dropWhile p).dropWhile p = l.dropWhile p := by
  induction l with
  | nil => simp
  | cons a l ih =>
    by_cases h : p a
    · simpa [List.dropWhile_cons, h] using ih
    · simp [List.dropWhile_cons, h]

theorem exists_append_dropWhile (p : Char → Bool) (l : GoStr) :
    ∃ t, l = t ++ l.dropWhile p := by
  induction l with
  | nil => exact ⟨[], rfl⟩
  | cons a l ih =>
    by_cases h : p a
    · obtain ⟨t, ht⟩ := ih
      exact ⟨a :: t, by simp [List.dropWhile_cons, h, ← ht]⟩
    · exact ⟨[], by simp [List.dropWhile_cons, h]⟩

theorem length_dropWhile_le_go (p : Char → Bool) (l : GoStr) :
    (l.dropWhile p).length ≤ l.length := by
  induction l with
  | nil => simp
  | cons a l ih =>
    by_cases h : p a
    · rw [List.dropWhile_cons, if_pos h]; simp; omega
    · rw [List.dropWhile_cons, if_neg h]

theorem dropWhile_fix_of_fix (p : Char → Bool) (x : GoStr)
    (hx : x.dropWhile p = x) :
    ((x.reverse.dropWhile p).reverse).dropWhile p = (x.reverse.dropWhile p).reverse := by
  obtain ⟨t, ht⟩ := exists_append_dropWhile p x.reverse
  set d := x.reverse.dropWhile p with hd
  rcases hrev : d.reverse with _ | ⟨a, ys⟩
  · simp [hrev]
  · have hx2 : x = d.reverse ++ t.reverse := by
      have := congrArg List.reverse ht
      simpa using this
    have hxhead : x = a :: (ys ++ t.reverse) := by
      rw [hx2, hrev]; simp
    have hpa : p a = false := by
      cases hpa : p a with
      | false => rfl
      | true =>
        exfalso
        have hthis := hx
        rw [hxhead, List.dropWhile_cons, if_pos hpa] at hthis
        have hlen := congrArg List.length hthis
        have hle := length_dropWhile_le_go p (ys ++ t.reverse)
        simp only [List.length_cons] at hlen
        omega
    simp [List.dropWhile_cons, hpa]

/-- Trimming is idempotent. -/
theorem goTrim_goTrim (l : GoStr) : goTrim (goTrim l) = goTrim l := by
  unfold goTrim
  have h1 : ((l.dropWhile isGoSpace).reverse.dropWhile isGoSpace).reverse.dropWhile isGoSpace
      = ((l.dropWhile isGoSpace).reverse.dropWhile isGoSpace).reverse :=
    dropWhile_fix_of_fix isGoSpace (l.dropWhile isGoSpace)
      (dropWhile_dropWhile_self isGoSpace l)
  rw [h1]
  simp [dropWhile_dropWhile_self]

theorem goSlice_succ (s : GoStr) (start i : Nat) (hstart : start ≤ i)
    (h : i < s.length) :
    goSlice s start (i + 1) = goSlice s start i ++ [s.get ⟨i, h⟩] := by
  unfold goSlice
  rw [List.take_succ]
  have hget : s[i]? = some (s.get ⟨i, h⟩) := by
    simp [List.getElem?_eq_getElem h]
  rw [hget]
  rw [List.drop_append_eq_append_drop]
  have hlen : (s.take i).length = i := by
    simp [List.length_take]; omega
  rw [hlen]
  have hz : start - i = 0 := by omega
  simp [hz]

theorem goSlice_refl_empty (s : GoStr) (i : Nat) : goSlice s i i = [] := by
  unfold goSlice
  apply List.drop_eq_nil_of_le
  simp [List.length_take]

theorem sIQAux_spec (s : GoStr) (sep : Char) (fuel : Nat) :
    ∀ i start inQuotes parts, s.length ≤ i + fuel → start ≤ i →
      sIQAux s sep fuel i start inQuotes parts =
        parts ++ (rawScan sep (s.drop i) inQuotes (goSlice s start i)).map goTrim := by
  induction fuel with
  | zero =>
    intro i start inQuotes parts hfuel _
    have hi : s.length ≤ i := by omega
    rw [List.drop_eq_nil_of_le hi]
    simp [sIQAux, rawScan]
  | succ fuel ih =>
    intro i start inQuotes parts hfuel hstart
    by_cases h : i < s.length
    · rw [List.drop_eq_getElem_cons h]
      simp only [sIQAux]
      rw [dif_pos h]
      have hc : s[i] = s.get ⟨i, h⟩ := rfl
      by_cases hq : s.get ⟨i, h⟩ = '"'
      · rw [if_pos hq]
        rw [ih (i + 1) start (!inQuotes) parts (by omega) (by omega)]
        rw [rawScan, hc, if_pos hq]
        rw [goSlice_succ s start i hstart h]
      · by_cases hsep : s.get ⟨i, h⟩ = sep ∧ inQuotes = false
        · rw [if_neg hq, if_pos hsep]
          rw [ih (i + 1) (i + 1) inQuotes (parts ++ [goTrim (goSlice s start i)])
            (by omega) (le_refl _)]
          rw [goSlice_refl_empty]
          rw [rawScan, hc, if_neg hq, if_pos hsep]
          simp
        · rw [if_neg hq, if_neg hsep]
          rw [ih (i + 1) start inQuotes parts (by omega) (by omega)]
          rw [rawScan, hc, if_neg hq, if_neg hsep]
          rw [goSlice_succ s start i hstart h]
    · simp only [sIQAux]
      rw [dif_neg h]
      have hi : s.length ≤ i := by omega
      rw [List.drop_eq_nil_of_le hi]
      simp [rawScan]

/-- The source split agrees everywhere with the specification-level split. -/
theorem splitIgnoreQuoted_eq_splitSpec (s : GoStr) (sep : Char) :
    splitIgnoreQuoted s sep = splitSpec s sep := by
  unfold splitIgnoreQuoted splitSpec
  rw [sIQAux_spec s sep s.length 0 0 false [] (by omega) (by omega)]
  simp [goSlice, List.take_length]

theorem rawScan_ne_nil (sep : Char) (l : GoStr) (inQuotes : Bool) (acc : GoStr) :
    rawScan sep l inQuotes acc ≠ [] := by
  induction l generalizing inQuotes acc with
  | nil => simp [rawScan]
  | cons c rest ih =>
    rw [rawScan]
    by_cases hq : c = '"'
    · rw [if_pos hq]; exact ih _ _
    · by_cases hsep : c = sep ∧ inQuotes = false
      · rw [if_neg hq, if_pos hsep]; simp
      · rw [if_neg hq, if_neg hsep]; exact ih _ _

theorem splitIgnoreQuoted_ne_nil (s : GoStr) (sep : Char) :
    splitIgnoreQuoted s sep ≠ [] := by
  rw [splitIgnoreQuoted_eq_splitSpec]
  unfold splitSpec
  intro hcon
  exact rawScan_ne_nil sep s false [] (by simpa using hcon)

/-!
Data model: the runtime types of destination fields (`GoType`), the decoded
untyped values threaded through the pipeline (`Value`), and a model of
float64 (`GoFloat`) that is exact on finite rationals; IEEE rounding is not
modelled, which is exact on the small decimal literals exercised here, and
non-finite operands of arithmetic are modelled coarsely as NaN except for
division by zero, which follows the IEEE sign rules.
-/

inductive GoType where
  | boolT
  | intT
  | int64T
  | floatT
  | stringT
  | ifaceT
  | timeT
  | sliceT (elem : GoType)
  | mapT (key elem : GoType)
  | ptrT (elem : GoType)
deriving DecidableEq, Repr

inductive GoFloat where
  | num (q : ℚ)
  | inf
  | negInf
  | nan
deriving DecidableEq, Repr

/-- Untyped decoded values (Go `interface\x7b\x7d` contents), together with the
special values the revision under audit can produce: `typeDesc` models a
`reflect.Type` stored as a value (the result of `reflect.SliceOf` /
`reflect.MapOf`), `reflectVal` models a `reflect.Value` stored as a value,
and `ptrVal` a non-nil pointer in a destination field. -/
inductive Value where
  | null
  | bool (b : Bool)
  | int (n : ℤ)
  | int64 (n : ℤ)
  | float (f : GoFloat)
  | str (s : GoStr)
  | seq (l : List Value)
  | mapv (l : List (GoStr × Value))
  | time (ns : ℤ)
  | typeDesc (t : GoType)
  | reflectVal (v : Value)
  | ptrVal (v : Value)

/-- The zero value of each destination type. -/
def zeroOf : GoType → Value
  | .boolT => .bool false
  | .intT => .int 0
  | .int64T => .int64 0
  | .floatT => .float (.num 0)
  | .stringT => .str []
  | .ifaceT => .null
  | .timeT => .time 0
  | .sliceT _ => .null
  | .mapT _ _ => .null
  | .ptrT _ => .null

/-- Strip pointer layers off a destination type (`stripPointer`, type part). -/
def stripPtrTy : GoType → GoType
  | .ptrT t => stripPtrTy t
  | t => t

/-- The value at the innermost layer after `stripPointer` runs: a nil
pointer is allocated to a fresh zero element before descending. -/
def innerOf : GoType → Value → Value
  | .ptrT t, .ptrVal v => innerOf t v
  | .ptrT t, _ => innerOf t (zeroOf t)
  | _, v => v

/-- Re-wrap an inner value in the pointer layers `stripPointer` allocated. -/
def wrapPtrs : GoType → Value → Value
  | .ptrT t, v => .ptrVal (wrapPtrs t v)
  | _, v => v

/-- Decimal digit value of a character. -/
def digitVal (c : Char) : Option ℕ :=
  if '0' ≤ c ∧ c ≤ '9' then some (c.toNat - '0'.toNat) else none

def digitsToNatAux : List Char → ℕ → Option ℕ
  | [], acc => some acc
  | c :: rest, acc =>
    match digitVal c with
    | some d => digitsToNatAux rest (acc * 10 + d)
    | none => none

/-- A non-empty all-digit string as a natural number. -/
def digitsToNat : List Char → Option ℕ
  | [] => none
  | l => digitsToNatAux l 0

/-- Model of `strconv.ParseInt(s, 10, 64)`: optional sign, decimal digits,
64-bit range check. -/
def goParseInt (s : GoStr) : Option ℤ :=
  match s with
  | '+' :: rest =>
    (digitsToNat rest).bind fun n =>
      if (n : ℤ) ≤ 2 ^ 63 - 1 then some (n : ℤ) else none
  | '-' :: rest =>
    (digitsToNat rest).bind fun n =>
      if (n : ℤ) ≤ 2 ^ 63 then some (-(n : ℤ)) else none
  | _ =>
    (digitsToNat s).bind fun n =>
      if (n : ℤ) ≤ 2 ^ 63 - 1 then some (n : ℤ) else none

/-- Model of `strconv.ParseUint(s, 10, 8)`. -/
def goParseUint8 (s : GoStr) : Option ℕ :=
  (digitsToNat s).bind fun n => if n ≤ 255 then some n else none

def takeDigitsAux : List Char → ℕ → ℕ → (ℕ × ℕ × List Char)
  | [], v, k => (v, k, [])
  | c :: rest, v, k =>
    match digitVal c with
    | some d => takeDigitsAux rest (v * 10 + d) (k + 1)
    | none => (v, k, c :: rest)

/-- Model of the decimal forms accepted by `strconv.ParseFloat(s, 64)`:
optional sign, digits with an optional fractional part (at least one digit
overall), optional decimal exponent.  Special forms (inf, NaN, hex floats,
underscores) are not modelled, and the result is the exact rational rather
than the nearest binary float. -/
def goParseFloat (s : GoStr) : Option ℚ :=
  let signSplit : Bool × List Char :=
    match s with
    | '+' :: r => (false, r)
    | '-' :: r => (true, r)
    | r => (false, r)
  let neg := signSplit.1
  let (ip, ik, s2) := takeDigitsAux signSplit.2 0 0
  let fracSplit : ℕ × ℕ × List Char :=
    match s2 with
    | '.' :: r => takeDigitsAux r 0 0
    | r => (0, 0, r)
  let (fp, fk, s3) := fracSplit
  -- when there is no dot, s2 has no leading digit, so (0,0,s2) is faithful
  if ik = 0 ∧ fk = 0 then none
  else
    let base : ℚ := (ip : ℚ) + (fp : ℚ) / ((10 : ℚ) ^ fk)
    let signed : ℚ := if neg then -base else base
    match s3 with
    | [] => some signed
    | 'e' :: r =>
      let esign : Bool × List Char :=
        match r with
        | '+' :: r2 => (false, r2)
        | '-' :: r2 => (true, r2)
        | r2 => (false, r2)
      let (ev, ek, r3) := takeDigitsAux esign.2 0 0
      if ek = 0 ∨ r3 ≠ [] then none
      else some (signed * (10 : ℚ) ^ (if esign.1 then -(ev : ℤ) else (ev : ℤ)))
    | 'E' :: r =>
      let esign : Bool × List Char :=
        match r with
        | '+' :: r2 => (false, r2)
        | '-' :: r2 => (true, r2)
        | r2 => (false, r2)
      let (ev, ek, r3) := takeDigitsAux esign.2 0 0
      if ek = 0 ∨ r3 ≠ [] then none
      else some (signed * (10 : ℚ) ^ (if esign.1 then -(ev : ℤ) else (ev : ℤ)))
    | _ => none

/-- Model of `strconv.Unquote` restricted to plain double-quoted strings
with no escapes or interior quotes (the only forms annotations use). -/
def goUnquote (s : GoStr) : Option GoStr :=
  match s with
  | '"' :: rest =>
    if rest ≠ [] ∧ rest.getLast? = some '"' then
      let inner := rest.dropLast
      if inner.all (fun c => !(c = '"' || c = '\\')) then some inner else none
    else none
  | _ => none

/-- Go string lowering (`strings.ToLower`), character by character. -/
def toLowerStr (s : GoStr) : GoStr := s.map Char.toLower

def goStr2String (l : GoStr) : String := String.mk l

/-- Truncation toward zero, as in Go's float-to-integer conversion. -/
def ratTrunc (q : ℚ) : ℤ := Int.tdiv q.num (q.den : ℤ)

/-- Go float64-to-int64 conversion; out-of-range non-finite inputs are
implementation-specific in Go and modelled as saturation / zero. -/
def f64toI64 : GoFloat → ℤ
  | .num q => ratTrunc q
  | .inf => 2 ^ 63 - 1
  | .negInf => -(2 ^ 63)
  | .nan => 0

def natRepr (n : ℕ) : GoStr := Nat.toDigits 10 n

def intRepr (n : ℤ) : GoStr :=
  if n < 0 then '-' :: natRepr n.natAbs else natRepr n.toNat

def fracDigitsAux : ℕ → ℚ → GoStr
  | 0, _ => []
  | k + 1, q =>
    if q = 0 then []
    else
      let q10 := q * 10
      let d := ratTrunc q10
      Char.ofNat ('0'.toNat + d.toNat) :: fracDigitsAux k (q10 - (d : ℚ))

/-- Decimal rendering of a float for `fmt.Sprint`; terminating decimals are
rendered exactly, which covers every value that reaches this function in the
fragments verified here. -/
def sprintFloat : GoFloat → GoStr
  | .num q =>
    let a : ℚ := |q|
    let ipart := ratTrunc a
    let frac := a - (ipart : ℚ)
    (if q < 0 then ['-'] else []) ++ natRepr ipart.toNat ++
      (if frac = 0 then [] else '.' :: fracDigitsAux 17 frac)
  | .inf => gs "+Inf"
  | .negInf => gs "-Inf"
  | .nan => gs "NaN"

/-- Model of `fmt.Sprint` on decoded values; compound values are rendered
coarsely (they never reach the numeric-parsing call sites verified here). -/
def sprintValue : Value → GoStr
  | .null => gs "<nil>"
  | .bool b => if b then gs "true" else gs "false"
  | .int n => intRepr n
  | .int64 n => intRepr n
  | .float f => sprintFloat f
  | .str s => s
  | .time ns => gs "time" ++ intRepr ns
  | _ => gs "<compound>"

def GoFloat.addF : GoFloat → GoFloat → GoFloat
  | .num a, .num b => .num (a + b)
  | _, _ => .nan

def GoFloat.subF : GoFloat → GoFloat → GoFloat
  | .num a, .num b => .num (a - b)
  | _, _ => .nan

def GoFloat.mulF : GoFloat → GoFloat → GoFloat
  | .num a, .num b => .num (a * b)
  | _, _ => .nan

/-- IEEE division on the float model: a finite nonzero value divided by
zero is a signed infinity, zero by zero is NaN. -/
def GoFloat.divF : GoFloat → GoFloat → GoFloat
  | .num a, .num b =>
    if b = 0 then (if a > 0 then .inf else if a < 0 then .negInf else .nan)
    else .num (a / b)
  | _, _ => .nan

/-- IEEE equality on the float model (NaN compares unequal to everything). -/
def GoFloat.eqF : GoFloat → GoFloat → Bool
  | .num a, .num b => a = b
  | .inf, .inf => true
  | .negInf, .negInf => true
  | _, _ => false

/-- Model of `parseDuration` (util.go): parse a numeric string and scale to
nanoseconds by the unit (default seconds). -/
def parseDuration (value unit : GoStr) : Option ℤ :=
  (goParseFloat value).map fun q =>
    if unit = gs "nanoseconds" then ratTrunc q
    else if unit = gs "microseconds" then ratTrunc (q * 1000)
    else if unit = gs "milliseconds" then ratTrunc (q * 1000000)
    else if unit = gs "minutes" then ratTrunc (q * 60000000000)
    else if unit = gs "hours" then ratTrunc (q * 3600000000000)
    else ratTrunc (q * 1000000000)

/-- Model of `parseTime` (util.go): parse a numeric epoch string into nanoseconds
since the Unix epoch by the unit (default seconds). -/
def parseTime (value unit : GoStr) : Option ℤ :=
  (goParseFloat value).map fun q =>
    if unit = gs "nanoseconds" then ratTrunc q
    else if unit = gs "microseconds" then ratTrunc (q * 1000)
    else if unit = gs "milliseconds" then ratTrunc q * 1000000
    else if unit = gs "minutes" then ratTrunc (q * 60) * 1000000000
    else if unit = gs "hours" then ratTrunc (q * 3600) * 1000000000
    else ratTrunc q * 1000000000

/-- Model of `compareInterfaceValue` (util.go): typed comparison of a decoded value
against a string argument, dispatching on the runtime type; any unmatched
type compares unequal. -/
def compareInterfaceValue (value : Value) (arg : GoStr) : Bool :=
  match value with
  | .bool v => (decide (arg = gs "true") && v) || (decide (arg = gs "false") && !v)
  | .int v =>
    match goParseInt arg with
    | some argInt => v = argInt
    | none => false
  | .float f =>
    match goParseFloat arg with
    | some argFloat => f.eqF (.num argFloat)
    | none => false
  | _ => false

/-- Result of a coercion-helper call: a value, an ordinary error, or a
runtime panic (the two are distinct conditions in Go). -/
inductive OpResult where
  | ok (v : Value)
  | fail (msg : String)
  | pan (msg : String)

/-- Signed 64-bit wrap-around, as Go's int64 arithmetic. -/
def i64wrap (n : ℤ) : ℤ := (n + 2 ^ 63) % 2 ^ 64 - 2 ^ 63

/-- Go's truncating integer division; `none` on a zero divisor models the
unguarded runtime panic. -/
def intArith (name : GoStr) (a b : ℤ) : Option ℤ :=
  if name = gs "add" then some (i64wrap (a + b))
  else if name = gs "subtract" then some (i64wrap (a - b))
  else if name = gs "multiply" then some (i64wrap (a * b))
  else if b = 0 then none
  else some (i64wrap (Int.tdiv a b))

def floatArith (name : GoStr) (a b : GoFloat) : GoFloat :=
  if name = gs "add" then a.addF b
  else if name = gs "subtract" then a.subF b
  else if name = gs "multiply" then a.mulF b
  else a.divF b

/-- Model of `performArithmeticOperation` (app.go): select the operator from
parts[0], require an argument, parse it first as an integer and only on
failure as a float; an integer value with an integer argument stays
integer, otherwise the computation is done in floats. -/
def performArithmeticOperation (value : Value) (parts : List GoStr)
    (inverted : Bool) (fieldName : GoStr) : OpResult :=
  let p0 := parts.headD []
  if p0 = gs "add" ∨ p0 = gs "subtract" ∨ p0 = gs "multiply" ∨ p0 = gs "divide" then
    if parts.length < 2 then
      .pan ("mson: tag option " ++ goStr2String p0 ++ " requires at least one argument")
    else
      let arg := parts.getD 1 []
      match goParseInt arg with
      | some conv =>
        match value with
        | .int v =>
          match intArith p0 v conv with
          | some r => .ok (.int r)
          | none => .pan "runtime error: integer divide by zero"
        | .float f => .ok (.float (floatArith p0 f (.num (conv : ℚ))))
        | _ => .fail ("mson: field " ++ goStr2String fieldName ++ " is not a number")
      | none =>
        match goParseFloat arg with
        | some conv =>
          match value with
          | .int v => .ok (.float (floatArith p0 (.num (v : ℚ)) (.num conv)))
          | .float f => .ok (.float (floatArith p0 f (.num conv)))
          | _ => .fail ("mson: field " ++ goStr2String fieldName ++ " is not a number")
        | none =>
          .fail ("mson: tag option " ++ goStr2String p0 ++
            " received invalid argument " ++ goStr2String arg)
  else .pan ("mson: unknown numerical operation " ++ goStr2String p0)

def ratFloor (q : ℚ) : ℤ := q.num.fdiv (q.den : ℤ)

/-- Rounding of `math.Round`: half away from zero. -/
def mathRound (q : ℚ) : ℚ :=
  if q ≥ 0 then (ratFloor (q + 1 / 2) : ℚ) else -(ratFloor (-q + 1 / 2) : ℚ)

def mathFloor (q : ℚ) : ℚ := (ratFloor q : ℚ)

def mathCeil (q : ℚ) : ℚ := -((ratFloor (-q)) : ℚ)

def numOp (name : GoStr) (q : ℚ) : ℚ :=
  if name = gs "round" then mathRound q
  else if name = gs "floor" then mathFloor q
  else mathCeil q

/-- Model of `performNumericalOperation` (app.go): rounding with a decimal-place
shift.  Note the faithful final overwrite in the float branch: the
`int64(op(v))` result of the zero-places path is discarded by the trailing
assignment of `v`, so a zero-places call returns the float unchanged. -/
def performNumericalOperation (value : Value) (parts : List GoStr)
    (inverted : Bool) (fieldName : GoStr) : OpResult :=
  let p0 := parts.headD []
  if p0 = gs "round" ∨ p0 = gs "floor" ∨ p0 = gs "ceil" then
    let placesOpt : Option ℕ :=
      if parts.length > 1 then goParseUint8 (parts.getD 1 []) else some 0
    match placesOpt with
    | none =>
      .fail ("mson: tag option 'round' received invalid argument " ++
        goStr2String (parts.getD 1 []))
    | some places =>
      match value with
      | .float (.num v) =>
        let v1 :=
          if places = 0 then v
          else if inverted then numOp p0 (v / (10 : ℚ) ^ places) * (10 : ℚ) ^ places
          else numOp p0 (v * (10 : ℚ) ^ places) / (10 : ℚ) ^ places
        .ok (.float (.num v1))
      | .float nf => .ok (.float nf)
      | .int v =>
        if inverted ∧ places > 0 then
          .ok (.float (.num (numOp p0 ((v : ℚ) / (10 : ℚ) ^ places) * (10 : ℚ) ^ places)))
        else .ok (.int v)
      | _ => .fail ("mson: field " ++ goStr2String fieldName ++ " is not a number")
  else .pan ("mson: unknown numerical operation " ++ goStr2String p0)

/-!
The option dispatcher (`processTag` in the primary revision) and the
per-field driver (`processField`).  Ambient effects are passed explicitly:
`caps` models `MethodByName` lookup of a zero-argument boolean capability,
`jsonDec` the external generic document decoder, `now` the wall clock in
nanoseconds.
-/

/-- Result of one clause: continue with a new current value, clear the
field and stop the chain, an ordinary error, or a panic. -/
inductive StepRes where
  | cont (v : Value)
  | stop
  | fail (msg : String)
  | pan (msg : String)

/-- Result of one field: the final stored field value, an ordinary error,
or a panic aborting the whole decode. -/
inductive Outcome where
  | ok (fieldVal : Value)
  | error (msg : String)
  | pan (msg : String)

/-- Test `IsZero` of a typed (destination) reflect value. -/
def isZeroInner : Value → Bool
  | .null => true
  | .bool b => !b
  | .int n => n = 0
  | .int64 n => n = 0
  | .float f => f = .num 0
  | .str s => s.isEmpty
  | .seq _ => false
  | .mapv _ => false
  | .time t => t = 0
  | .typeDesc _ => false
  | .reflectVal _ => false
  | .ptrVal _ => false

/-- Model of the reflect zero test on an interface value; `none` models
the panic on the invalid reflect value produced by a nil interface. -/
def isZeroValue : Value → Option Bool
  | .null => none
  | v => some (isZeroInner v)

/-- Was the clause name written with the trailing negation marker? -/
def clauseInverted (p0 : GoStr) : Bool :=
  decide (p0 ≠ []) && (p0.getLast? == some '!')

/-- The `modified` name the dispatcher switches on.  As in the source, it
is assigned only when the marker is present; otherwise it stays the empty
string. -/
def clauseModified (p0 : GoStr) : GoStr :=
  if p0 ≠ [] ∧ p0.getLast? = some '!' then p0.dropLast else []

/-- The `nilslice` case body: a nil value on a slice field receives
`reflect.SliceOf(elem)` — a type descriptor — and an inverted clause turns
a non-nil empty slice back into nil. -/
def nilsliceCase (inverted : Bool) (innerTy : GoType) (value : Value)
    (fieldName : GoStr) : StepRes :=
  match value with
  | .null =>
    if !inverted then
      match innerTy with
      | .sliceT elem => .cont (.typeDesc (.sliceT elem))
      | _ =>
        .fail ("mson: cannot convert field " ++ goStr2String fieldName ++
          " to a new slice; field is not a slice")
    else .cont .null
  | v =>
    if inverted then
      match v with
      | .seq l => if l.isEmpty then .cont .null else .cont v
      | _ => .cont v
    else .cont v

/-- The `nilmap` case body, symmetric to `nilsliceCase` with
`reflect.MapOf`. -/
def nilmapCase (inverted : Bool) (innerTy : GoType) (value : Value)
    (fieldName : GoStr) : StepRes :=
  match value with
  | .null =>
    if !inverted then
      match innerTy with
      | .mapT k elem => .cont (.typeDesc (.mapT k elem))
      | _ =>
        .fail ("mson: cannot convert field " ++ goStr2String fieldName ++
          " to a new map; field is not a map")
    else .cont .null
  | v =>
    if inverted then
      match v with
      | .mapv l => if l.isEmpty then .cont .null else .cont v
      | _ => .cont v
    else .cont v

/-- The `equals` case body: the comparison outcome is wrapped in
`reflect.ValueOf`, faithfully modelled by the `reflectVal` constructor. -/
def equalsCase (inverted : Bool) (parts : List GoStr) (value : Value)
    (innerVal : Value) : StepRes :=
  if parts.length > 1 then
    let arg :=
      match goUnquote (parts.getD 1 []) with
      | some a => a
      | none => parts.getD 1 []
    .cont (.reflectVal (.bool (compareInterfaceValue value arg == !inverted)))
  else
    .cont (.reflectVal (.bool (isZeroInner innerVal == !inverted)))

/-- The `empty` case body: zero-or-capability test, then clear the field
and stop (or continue) depending on the inversion flag. -/
def emptyCase (caps : GoStr → Value → Option Bool) (inverted : Bool)
    (parts : List GoStr) (value : Value) : StepRes :=
  if parts.length > 1 then
    match value with
    | .null => .pan "reflect: call of reflect.Value.MethodByName on zero Value"
    | v =>
      match caps (parts.getD 1 []) v with
      | none =>
        .pan ("mson: invalid function " ++ goStr2String (parts.getD 1 []) ++
          " provided as argument to empty")
      | some e =>
        if (e && !inverted) || (!e && inverted) then .stop else .cont value
  else
    match isZeroValue value with
    | none => .pan "reflect: call of reflect.Value.IsZero on zero Value"
    | some e =>
      if (e && !inverted) || (!e && inverted) then .stop else .cont value

/-- The `fromstring` case body. -/
def fromstringCase (jsonDec : GoStr → Option Value) (inverted : Bool)
    (value : Value) (fieldName : GoStr) : StepRes :=
  match value with
  | .str s =>
    if inverted then
      .fail ("mson: field " ++ goStr2String fieldName ++ " is already a string")
    else
      match jsonDec s with
      | none => .fail ("mson: unquoting of field " ++ goStr2String fieldName ++ " failed")
      | some v => .cont v
  | v =>
    if !inverted then
      .fail ("mson: field " ++ goStr2String fieldName ++ " is not a string")
    else .cont (.str (sprintValue v))

def opResultToStep : OpResult → StepRes
  | .ok v => .cont v
  | .fail m => .fail m
  | .pan m => .pan m

/-- The switch of the option dispatcher, keyed on the `modified` name. -/
def dispatchNamed (caps : GoStr → Value → Option Bool)
    (jsonDec : GoStr → Option Value) (now : ℤ)
    (innerTy : GoType) (innerVal : Value) (fieldName : GoStr)
    (modified : GoStr) (inverted : Bool) (parts : List GoStr)
    (value : Value) : StepRes :=
  if modified = gs "duration" then
    let unit := if parts.length > 1 then parts.getD 1 [] else gs "seconds"
    match parseDuration (sprintValue value) unit with
    | none =>
      .fail ("mson: conversion of field " ++ goStr2String fieldName ++
        " to time.Duration failed")
    | some d => if inverted then .cont (.time (now + d)) else .cont (.int64 d)
  else if modified = gs "unix" then
    let unit := if parts.length > 1 then parts.getD 1 [] else gs "seconds"
    match parseTime (sprintValue value) unit with
    | none =>
      .fail ("mson: conversion of field " ++ goStr2String fieldName ++
        " to time.Time failed")
    | some t => .cont (.reflectVal (.time t))
  else if modified = gs "nilslice" then nilsliceCase inverted innerTy value fieldName
  else if modified = gs "nilmap" then nilmapCase inverted innerTy value fieldName
  else if modified = gs "equals" then equalsCase inverted parts value innerVal
  else if modified = gs "contains" then .cont (.bool true)
  else if modified = gs "empty" then emptyCase caps inverted parts value
  else if modified = gs "fromstring" then fromstringCase jsonDec inverted value fieldName
  else if modified = gs "add" ∨ modified = gs "subtract" ∨
      modified = gs "multiply" ∨ modified = gs "divide" then
    opResultToStep (performArithmeticOperation value parts inverted fieldName)
  else if modified = gs "round" ∨ modified = gs "floor" ∨ modified = gs "ceil" then
    opResultToStep (performNumericalOperation value parts inverted fieldName)
  else .pan ("mson: unknown tag option " ++ goStr2String (parts.headD []))

/-- One iteration of the dispatcher loop: tokenize the clause and switch. -/
def dispatchClause (caps : GoStr → Value → Option Bool)
    (jsonDec : GoStr → Option Value) (now : ℤ)
    (innerTy : GoType) (innerVal : Value) (fieldName : GoStr)
    (value : Value) (opt : GoStr) : StepRes :=
  dispatchNamed caps jsonDec now innerTy innerVal fieldName
    (clauseModified ((splitIgnoreQuoted opt ',').headD []))
    (clauseInverted ((splitIgnoreQuoted opt ',').headD []))
    (splitIgnoreQuoted opt ',') value

/-- Type admissibility of the reflect Set call for the final assignment. -/
def valueTypeMatches : GoType → Value → Bool
  | .boolT, .bool _ => true
  | .intT, .int _ => true
  | .int64T, .int64 _ => true
  | .floatT, .float _ => true
  | .stringT, .str _ => true
  | .ifaceT, _ => true
  | .sliceT .ifaceT, .seq _ => true
  | .mapT .stringT .ifaceT, .mapv _ => true
  | .timeT, .time _ => true
  | _, _ => false

/-- The final `inner.Set(reflect.ValueOf(value))`: a type mismatch is a
runtime panic. -/
def assignInner (fieldTy innerTy : GoType) (value : Value) : Outcome :=
  if valueTypeMatches innerTy value then .ok (wrapPtrs fieldTy value)
  else .pan "reflect: Set: value of wrong type"

/-- The dispatcher loop of `processTag`, recursing over the options. -/
def processTagGo (caps : GoStr → Value → Option Bool)
    (jsonDec : GoStr → Option Value) (now : ℤ)
    (fieldTy innerTy : GoType) (innerVal : Value) (fieldName : GoStr) :
    Value → List GoStr → Outcome
  | value, [] => assignInner fieldTy innerTy value
  | value, opt :: rest =>
    match dispatchClause caps jsonDec now innerTy innerVal fieldName value opt with
    | .cont v => processTagGo caps jsonDec now fieldTy innerTy innerVal fieldName v rest
    | .stop => .ok (zeroOf fieldTy)
    | .fail m => .error m
    | .pan m => .pan m

/-- Model of `processTag` of the primary revision: strip pointers once, thread the
current value through the clauses, then assign. -/
def processTag (caps : GoStr → Value → Option Bool)
    (jsonDec : GoStr → Option Value) (now : ℤ)
    (fieldTy : GoType) (fieldVal : Value) (value : Value)
    (options : List GoStr) (fieldName : GoStr) : Outcome :=
  processTagGo caps jsonDec now fieldTy (stripPtrTy fieldTy)
    (innerOf fieldTy fieldVal) fieldName value options

/-- First-match lookup in the (lower-cased) decoded document. -/
def lookupDoc : List (GoStr × Value) → GoStr → Option Value
  | [], _ => none
  | (k, v) :: rest, key => if k = key then some v else lookupDoc rest key

/-- The declared field name: empty or "_" falls back to the struct field's
own identifier. -/
def declaredName (tagHead : GoStr) (structName : GoStr) : GoStr :=
  if tagHead = [] then structName
  else if tagHead = gs "_" then structName
  else tagHead

/-- Model of `processField` of the primary revision: tokenize the tag, resolve the
declared name against the document case-insensitively; on absence, zero
the field and succeed without entering the clause chain. -/
def processField (caps : GoStr → Value → Option Bool)
    (jsonDec : GoStr → Option Value) (now : ℤ)
    (fieldTy : GoType) (fieldVal : Value) (structName : GoStr)
    (jsonTag : GoStr) (data : List (GoStr × Value)) : Outcome :=
  if (splitIgnoreQuoted jsonTag ',').length = 0 ∨
      (splitIgnoreQuoted jsonTag ',').headD [] = gs "-" then .ok fieldVal
  else
    match lookupDoc data
      (toLowerStr (declaredName ((splitIgnoreQuoted jsonTag ',').headD []) structName)) with
    | some value =>
      processTag caps jsonDec now fieldTy fieldVal value
        (splitIgnoreQuoted jsonTag ',').tail
        (declaredName ((splitIgnoreQuoted jsonTag ',').headD []) structName)
    | none => .ok (zeroOf fieldTy)

/-- Trivial capability environment: no named method resolves. -/
def noCaps : GoStr → Value → Option Bool := fun _ _ => none

/-- Trivial external decoder: nothing decodes. -/
def noDec : GoStr → Option Value := fun _ => none

/-- The operation names the dispatcher defines. -/
def opNames : List GoStr :=
  [gs "duration", gs "unix", gs "nilslice", gs "nilmap", gs "equals",
   gs "contains", gs "empty", gs "fromstring", gs "add", gs "subtract",
   gs "multiply", gs "divide", gs "round", gs "floor", gs "ceil"]

/-- A clause name with any trailing negation marker removed (the reading of
the specification; contrast with the source's `clauseModified`). -/
def strippedName (p0 : GoStr) : GoStr :=
  if p0.getLast? = some '!' then p0.dropLast else p0

theorem processField_absent (caps : GoStr → Value → Option Bool)
    (jsonDec : GoStr → Option Value) (now : ℤ)
    (fieldTy : GoType) (fieldVal : Value) (structName jsonTag : GoStr)
    (data : List (GoStr × Value))
    (hne : (splitIgnoreQuoted jsonTag ',').headD [] ≠ gs "-")
    (habs : lookupDoc data
      (toLowerStr (declaredName ((splitIgnoreQuoted jsonTag ',').headD []) structName))
      = none) :
    processField caps jsonDec now fieldTy fieldVal structName jsonTag data
      = .ok (zeroOf fieldTy) := by
  have hnn := splitIgnoreQuoted_ne_nil jsonTag ','
  have hcond : ¬((splitIgnoreQuoted jsonTag ',').length = 0 ∨
      (splitIgnoreQuoted jsonTag ',').headD [] = gs "-") := by
    push_neg
    exact ⟨fun h0 => hnn (List.length_eq_zero.mp h0), hne⟩
  simp only [processField]
  rw [if_neg hcond, habs]

theorem dispatchNamed_unknown (caps : GoStr → Value → Option Bool)
    (jsonDec : GoStr → Option Value) (now : ℤ)
    (innerTy : GoType) (innerVal : Value) (fieldName : GoStr)
    (modified : GoStr) (inverted : Bool) (parts : List GoStr) (value : Value)
    (h : modified ∉ opNames) :
    dispatchNamed caps jsonDec now innerTy innerVal fieldName
      modified inverted parts value
      = .pan ("mson: unknown tag option " ++ goStr2String (parts.headD [])) := by
  have h1 : modified ≠ gs "duration" := fun he => h (by rw [he]; decide)
  have h2 : modified ≠ gs "unix" := fun he => h (by rw [he]; decide)
  have h3 : modified ≠ gs "nilslice" := fun he => h (by rw [he]; decide)
  have h4 : modified ≠ gs "nilmap" := fun he => h (by rw [he]; decide)
  have h5 : modified ≠ gs "equals" := fun he => h (by rw [he]; decide)
  have h6 : modified ≠ gs "contains" := fun he => h (by rw [he]; decide)
  have h7 : modified ≠ gs "empty" := fun he => h (by rw [he]; decide)
  have h8 : modified ≠ gs "fromstring" := fun he => h (by rw [he]; decide)
  have hg1 : ¬(modified = gs "add" ∨ modified = gs "subtract" ∨
      modified = gs "multiply" ∨ modified = gs "divide") := by
    rintro (hx | hx | hx | hx) <;> exact h (by rw [hx]; decide)
  have hg2 : ¬(modified = gs "round" ∨ modified = gs "floor" ∨
      modified = gs "ceil") := by
    rintro (hx | hx | hx) <;> exact h (by rw [hx]; decide)
  simp only [dispatchNamed]
  rw [if_neg h1, if_neg h2, if_neg h3, if_neg h4, if_neg h5, if_neg h6,
    if_neg h7, if_neg h8, if_neg hg1, if_neg hg2]

theorem clauseModified_not_op (p0 : GoStr) (h : strippedName p0 ∉ opNames) :
    clauseModified p0 ∉ opNames := by
  unfold clauseModified
  by_cases hl : p0 ≠ [] ∧ p0.getLast? = some '!'
  · rw [if_pos hl]
    have hs : strippedName p0 = p0.dropLast := by
      unfold strippedName; rw [if_pos hl.2]
    rw [← hs]; exact h
  · rw [if_neg hl]; decide

theorem dispatchNamed_contains (caps : GoStr → Value → Option Bool)
    (jsonDec : GoStr → Option Value) (now : ℤ)
    (innerTy : GoType) (innerVal : Value) (fieldName : GoStr)
    (inverted : Bool) (parts : List GoStr) (value : Value) :
    dispatchNamed caps jsonDec now innerTy innerVal fieldName
      (gs "contains") inverted parts value = .cont (.bool true) := by
  simp only [dispatchNamed]
  rw [if_neg (by decide), if_neg (by decide), if_neg (by decide),
    if_neg (by decide), if_neg (by decide)]
  simp

/-!
Claim theorems.
-/

/-- Claim C1: for every destination field whose declared name (case-folded)
matches no key of the decoded document, `processField` sets the field to its
type's zero value, runs none of the field's clauses regardless of the
annotation (the result is the same for every clause chain), and returns
success, not an error. -/
theorem c1_absent_key_zeroes_field (caps : GoStr → Value → Option Bool)
    (jsonDec : GoStr → Option Value) (now : ℤ)
    (fieldTy : GoType) (fieldVal : Value) (structName jsonTag : GoStr)
    (data : List (GoStr × Value))
    (hne : (splitIgnoreQuoted jsonTag ',').headD [] ≠ gs "-")
    (habs : lookupDoc data
      (toLowerStr (declaredName ((splitIgnoreQuoted jsonTag ',').headD []) structName))
      = none) :
    processField caps jsonDec now fieldTy fieldVal structName jsonTag data
      = .ok (zeroOf fieldTy) :=
  processField_absent caps jsonDec now fieldTy fieldVal structName jsonTag data hne habs

/-- Witness for C1: the field `Age`, annotated `age,contains`, decoded
against a document without an `age` key, is zeroed with no clause run (the
`contains` clause would otherwise panic in this revision). -/
theorem c1_absent_key_zeroes_field_witness :
    processField noCaps noDec 0 GoType.intT (.int 7) (gs "Age") (gs "age,contains")
      [(gs "other", .int 1)] = .ok (.int 0) :=
  c1_absent_key_zeroes_field noCaps noDec 0 GoType.intT (.int 7) (gs "Age")
    (gs "age,contains") [(gs "other", .int 1)] (by decide) rfl

/-- Claim C2 (refuted by evaluation): a defined clause name with no
negation marker is nevertheless treated as unrecognized, because the
source only assigns the switched-on `modified` name inside the marker
test; `contains` panics instead of dispatching. -/
theorem c2_non_inverted_defined_clause_panics :
    processTag noCaps noDec 0 GoType.boolT (.bool false) (.bool false)
      [gs "contains"] (gs "flag") = .pan "mson: unknown tag option contains" := rfl

/-- Claim C3 (refuted by evaluation): on the chain `empty` then `add,1`
with current value integer 0, the decode panics at the `empty` clause
(never dispatched because it carries no negation marker) instead of
resetting the field and stopping; the second conjunct shows the case body
itself would behave as specified had it been reached. -/
theorem c3_empty_then_add_panics :
    processTag noCaps noDec 0 GoType.intT (.int 0) (.int 0)
      [gs "empty", gs "add,1"] (gs "count") = .pan "mson: unknown tag option empty"
    ∧ emptyCase noCaps false [gs "empty"] (.int 0) = .stop :=
  ⟨rfl, rfl⟩

/-- Claim C4: a clause whose name, after stripping any trailing negation
marker, matches no defined operation makes the dispatcher panic — for every
current value, clause position and document-independent state — and a panic
is distinct from an ordinary field-scoped error. -/
theorem c4_unknown_clause_panics (caps : GoStr → Value → Option Bool)
    (jsonDec : GoStr → Option Value) (now : ℤ)
    (fieldTy : GoType) (fieldVal : Value) (value : Value)
    (opt : GoStr) (rest : List GoStr) (fieldName : GoStr)
    (h : strippedName ((splitIgnoreQuoted opt ',').headD []) ∉ opNames) :
    processTag caps jsonDec now fieldTy fieldVal value (opt :: rest) fieldName
      = .pan ("mson: unknown tag option " ++
        goStr2String ((splitIgnoreQuoted opt ',').headD []))
    ∧ ∀ m e : String, (Outcome.pan m) ≠ (Outcome.error e) := by
  constructor
  · have hmod := clauseModified_not_op ((splitIgnoreQuoted opt ',').headD []) h
    have hd := dispatchNamed_unknown caps jsonDec now (stripPtrTy fieldTy)
      (innerOf fieldTy fieldVal) fieldName
      (clauseModified ((splitIgnoreQuoted opt ',').headD []))
      (clauseInverted ((splitIgnoreQuoted opt ',').headD []))
      (splitIgnoreQuoted opt ',') value hmod
    simp only [processTag, processTagGo, dispatchClause]
    rw [hd]
  · exact fun m e h2 => Outcome.noConfusion h2

/-- Witness for C4: the undefined clause `frobnicate` aborts the decode
with a panic. -/
theorem c4_unknown_clause_panics_witness :
    processTag noCaps noDec 0 GoType.boolT (.bool false) .null
      [gs "frobnicate"] (gs "f") = .pan "mson: unknown tag option frobnicate" :=
  (c4_unknown_clause_panics noCaps noDec 0 GoType.boolT (.bool false) .null
    (gs "frobnicate") [] (gs "f") (by decide)).1

/-- Claim C5: every clause the dispatcher resolves to the `contains`
operation replaces the current value with boolean true, unconditionally and
independently of any arguments or inversion flag; and when the field's key
is absent the pipeline is never entered at all, so reaching any clause
implies the key was present. -/
theorem c5_contains_sets_true :
    (∀ (caps : GoStr → Value → Option Bool) (jsonDec : GoStr → Option Value)
      (now : ℤ) (innerTy : GoType) (innerVal : Value) (fieldName : GoStr)
      (value : Value) (opt : GoStr),
      clauseModified ((splitIgnoreQuoted opt ',').headD []) = gs "contains" →
      dispatchClause caps jsonDec now innerTy innerVal fieldName value opt
        = .cont (.bool true))
    ∧ (∀ (caps : GoStr → Value → Option Bool) (jsonDec : GoStr → Option Value)
      (now : ℤ) (fieldTy : GoType) (fieldVal : Value) (structName jsonTag : GoStr)
      (data : List (GoStr × Value)),
      (splitIgnoreQuoted jsonTag ',').headD [] ≠ gs "-" →
      lookupDoc data
        (toLowerStr (declaredName ((splitIgnoreQuoted jsonTag ',').headD []) structName))
        = none →
      processField caps jsonDec now fieldTy fieldVal structName jsonTag data
        = .ok (zeroOf fieldTy)) := by
  constructor
  · intro caps jsonDec now innerTy innerVal fieldName value opt h
    simp only [dispatchClause]
    rw [h]
    exact dispatchNamed_contains caps jsonDec now innerTy innerVal fieldName
      (clauseInverted ((splitIgnoreQuoted opt ',').headD []))
      (splitIgnoreQuoted opt ',') value
  · exact fun caps jsonDec now fieldTy fieldVal structName jsonTag data hne habs =>
      processField_absent caps jsonDec now fieldTy fieldVal structName jsonTag data hne habs

/-- Witness for C5: a clause resolving to `contains` (spelled with the
marker, the only spelling this revision dispatches) yields boolean true and
ignores its argument; an absent key zeroes the field without running the
chain. -/
theorem c5_contains_sets_true_witness :
    dispatchClause noCaps noDec 0 GoType.boolT (.bool false) (gs "present")
      (.int 5) (gs "contains!, junk") = .cont (.bool true)
    ∧ processField noCaps noDec 0 GoType.boolT (.bool true) (gs "Present")
      (gs "present,contains") [(gs "name", .str (gs "Ada"))] = .ok (.bool false) := by
  constructor
  · exact c5_contains_sets_true.1 noCaps noDec 0 GoType.boolT (.bool false)
      (gs "present") (.int 5) (gs "contains!, junk") (by decide)
  · exact c5_contains_sets_true.2 noCaps noDec 0 GoType.boolT (.bool true)
      (gs "Present") (gs "present,contains") [(gs "name", .str (gs "Ada"))]
      (by decide) rfl

/-- Claim C6 (refuted by evaluation): `nilslice` on a null value never
produces a non-null empty sequence in this revision. The full pipeline
panics at dispatch (no negation marker), and even the case body, if
reached, stores `reflect.SliceOf` — a type descriptor, not a slice value —
while the inverted body does turn a non-null empty sequence into null. -/
theorem c6_nilslice_no_empty_seq :
    processTag noCaps noDec 0 (GoType.sliceT .ifaceT) .null .null
      [gs "nilslice"] (gs "items") = .pan "mson: unknown tag option nilslice"
    ∧ nilsliceCase false (GoType.sliceT .ifaceT) .null (gs "items")
        = .cont (.typeDesc (GoType.sliceT .ifaceT))
    ∧ nilsliceCase true (GoType.sliceT .ifaceT) (.seq []) (gs "items")
        = .cont .null :=
  ⟨rfl, rfl, rfl⟩

/-- Claim C7: the quoted-aware split is exactly the left-to-right scan of
the specification (quote toggles the flag and stays in the token, the
delimiter splits only outside quotes, every token is trimmed), it is total
so a trailing unmatched quote is tolerated, and empty input yields exactly
one empty token. -/
theorem c7_splitIgnoreQuoted_correct (s : GoStr) (sep : Char) :
    splitIgnoreQuoted s sep = (rawScan sep s false []).map goTrim
    ∧ (∀ t ∈ splitIgnoreQuoted s sep, goTrim t = t)
    ∧ splitIgnoreQuoted [] sep = [[]] := by
  refine ⟨splitIgnoreQuoted_eq_splitSpec s sep, ?_, rfl⟩
  intro t ht
  rw [splitIgnoreQuoted_eq_splitSpec] at ht
  unfold splitSpec at ht
  obtain ⟨u, _, rfl⟩ := List.mem_map.mp ht
  exact goTrim_goTrim u

/-- Witness for C7: a concrete split with a quoted delimiter, surrounding
whitespace and a trailing unmatched quote, plus the empty input. -/
theorem c7_splitIgnoreQuoted_correct_witness :
    splitIgnoreQuoted (gs "a,\"b, c\",  d\"") ','
      = [gs "a", gs "\"b, c\"", gs "d\""]
    ∧ splitIgnoreQuoted [] ',' = [[]] := by
  constructor
  · rw [(c7_splitIgnoreQuoted_correct (gs "a,\"b, c\",  d\"") ',').1]
    decide
  · exact (c7_splitIgnoreQuoted_correct [] ',').2.2

/-- Claim C8 (refuted by evaluation): no spelling of `equals` behaves as
claimed in this revision.  The unmarked spelling never dispatches (panic at
the default case); the marked spelling dispatches but wraps the boolean in
a `reflect.Value`, which the final assignment then rejects with a panic —
though the underlying typed comparison of integer 5 against "5" is true,
and the case body does compute the negated comparison for the marked
spelling. -/
theorem c8_equals_clause_broken :
    processTag noCaps noDec 0 GoType.boolT (.bool false) (.int 5)
      [gs "equals,\"5\""] (gs "flag") = .pan "mson: unknown tag option equals"
    ∧ dispatchClause noCaps noDec 0 GoType.boolT (.bool false) (gs "flag")
        (.int 5) (gs "equals!,\"5\"") = .cont (.reflectVal (.bool false))
    ∧ processTag noCaps noDec 0 GoType.boolT (.bool false) (.int 5)
        [gs "equals!,\"5\""] (gs "flag") = .pan "reflect: Set: value of wrong type"
    ∧ compareInterfaceValue (.int 5) (gs "5") = true :=
  ⟨rfl, rfl, rfl, rfl⟩

/-- Claim C9: `performArithmeticOperation` parses the argument first as an
integer and only on failure as a float; an integer value with an integer
argument yields an integer result (for a nonzero divisor), a fractional
argument promotes the result to a float; `add,2` on 3 gives integer 5 and
`add,2.5` on 3 gives float 5.5. -/
theorem c9_arith_int_keeps_int_float_promotes :
    (∀ (name : GoStr) (v conv : ℤ) (s : GoStr) (inverted : Bool) (fieldName : GoStr),
      name ∈ [gs "add", gs "subtract", gs "multiply", gs "divide"] →
      goParseInt s = some conv → conv ≠ 0 →
      ∃ m : ℤ, performArithmeticOperation (.int v) [name, s] inverted fieldName
        = .ok (.int m))
    ∧ (∀ (name : GoStr) (v : ℤ) (s : GoStr) (q : ℚ) (inverted : Bool) (fieldName : GoStr),
      name ∈ [gs "add", gs "subtract", gs "multiply", gs "divide"] →
      goParseInt s = none → goParseFloat s = some q →
      ∃ r : GoFloat, performArithmeticOperation (.int v) [name, s] inverted fieldName
        = .ok (.float r))
    ∧ performArithmeticOperation (.int 3) [gs "add", gs "2"] false (gs "n")
        = .ok (.int 5)
    ∧ performArithmeticOperation (.int 3) [gs "add", gs "2.5"] false (gs "n")
        = .ok (.float (.num (11 / 2))) := by
  refine ⟨?_, ?_, rfl, by with_unfolding_all rfl⟩
  · intro name v conv s inverted fieldName hmem hparse hnz
    have hcond : name = gs "add" ∨ name = gs "subtract" ∨
        name = gs "multiply" ∨ name = gs "divide" := by
      simpa using hmem
    have hhead : ([name, s] : List GoStr).headD [] = name := rfl
    have hget : ([name, s] : List GoStr).getD 1 [] = s := rfl
    have hlen : ¬(([name, s] : List GoStr).length < 2) := by simp
    simp only [performArithmeticOperation]
    rw [hhead, hget, if_pos hcond, if_neg hlen, hparse]
    rcases hcond with hn | hn | hn | hn <;> subst hn
    · exact ⟨i64wrap (v + conv), by simp +decide [intArith]⟩
    · exact ⟨i64wrap (v - conv), by simp +decide [intArith]⟩
    · exact ⟨i64wrap (v * conv), by simp +decide [intArith]⟩
    · exact ⟨i64wrap (Int.tdiv v conv), by simp +decide [intArith, hnz]⟩
  · intro name v s q inverted fieldName hmem hpi hpf
    have hcond : name = gs "add" ∨ name = gs "subtract" ∨
        name = gs "multiply" ∨ name = gs "divide" := by
      simpa using hmem
    have hhead : ([name, s] : List GoStr).headD [] = name := rfl
    have hget : ([name, s] : List GoStr).getD 1 [] = s := rfl
    have hlen : ¬(([name, s] : List GoStr).length < 2) := by simp
    simp only [performArithmeticOperation]
    rw [hhead, hget, if_pos hcond, if_neg hlen, hpi, hpf]
    exact ⟨floatArith name (.num (v : ℚ)) (.num q), rfl⟩

/-- Witness for C9: `subtract,2` keeps an integer value integer, and
`multiply,0.5` (a fractional argument) promotes it to a float. -/
theorem c9_arith_witness :
    (∃ m : ℤ, performArithmeticOperation (.int 7) [gs "subtract", gs "2"]
      false (gs "n") = .ok (.int m))
    ∧ (∃ r : GoFloat, performArithmeticOperation (.int 7) [gs "multiply", gs "0.5"]
      false (gs "n") = .ok (.float r)) := by
  constructor
  · exact c9_arith_int_keeps_int_float_promotes.1 (gs "subtract") 7 2 (gs "2")
      false (gs "n") (by decide) (by decide) (by decide)
  · exact c9_arith_int_keeps_int_float_promotes.2.1 (gs "multiply") 7 (gs "0.5")
      ((1 : ℚ) / 2) false (gs "n") (by decide) (by decide)
      (by with_unfolding_all rfl)

/-- Claim C10: an integer current value divided by an argument parsing as
integer 0 reaches the unguarded division and panics (not an ordinary
field-scoped error), while the fractional path silently yields an infinite
result — both when the argument is fractional zero and when the current
value is already a float. -/
theorem c10_divide_by_zero :
    performArithmeticOperation (.int 6) [gs "divide", gs "0"] false (gs "n")
      = .pan "runtime error: integer divide by zero"
    ∧ performArithmeticOperation (.int 6) [gs "divide", gs "0.0"] false (gs "n")
      = .ok (.float .inf)
    ∧ performArithmeticOperation (.float (.num 6)) [gs "divide", gs "0"] false (gs "n")
      = .ok (.float .inf)
    ∧ ∀ m e : String, (OpResult.pan m) ≠ (OpResult.fail e) :=
  ⟨rfl, by with_unfolding_all rfl, by with_unfolding_all rfl,
    fun m e h => OpResult.noConfusion h⟩
